import Mathlib

/-!
Shallow embedding of the entry-persistence and search-index core of
`src/app.py` (a Flask / peewee blog).  The database is modelled as explicit
lists of rows; every write operation is a pure function on that state, and
the `IntegrityError` paths of SQLite (unique constraints on `Entry.slug` and
`Tag.tag`) are modelled with `Except`.  The `database.atomic()` block of
`_create_or_edit` is modelled by returning the unchanged state whenever the
save raises.
-/

namespace Blog

/-! ### Character-level helpers

Python 2 `re` without `re.UNICODE` takes `\w` to be `[a-zA-Z0-9_]`, and
`str.lower()` in the default locale lowers only ASCII letters, which is what
core `Char.toLower` does. -/

/-- `\w` of Python `re` without `re.UNICODE`: ASCII letters, digits, underscore. -/
def isWordChar (c : Char) : Bool :=
  (65 ≤ c.toNat && c.toNat ≤ 90) || (97 ≤ c.toNat && c.toNat ≤ 122) ||
    (48 ≤ c.toNat && c.toNat ≤ 57) || c.toNat == 95

/-- ASCII lowering of a character list (`str.lower()`). -/
def lowerList (cs : List Char) : List Char := cs.map Char.toLower

/-- `re.sub('[^\w]+', '-', s)`: replace each maximal run of non-word
characters by a single hyphen.  The `Bool` flag records whether we are
inside such a run (so the hyphen has already been emitted). -/
def subRunsAux : Bool → List Char → List Char
  | _, [] => []
  | inRun, c :: cs =>
    if isWordChar c then c :: subRunsAux false cs
    else if inRun then subRunsAux true cs
    else '-' :: subRunsAux true cs

def subNonWord (cs : List Char) : List Char := subRunsAux false cs

/-- Python `str.strip(chars)`: drop matching characters from both ends. -/
def stripChar (p : Char → Bool) (cs : List Char) : List Char :=
  ((cs.dropWhile p).reverse.dropWhile p).reverse

/-- `re.sub('[^\w]+', '-', s.lower()).strip('-')` — the transformation used
both for slugs (app.py line 96) and for tag tokens (lines 102, 144). -/
def normalize (s : String) : String :=
  (stripChar (fun c => c == '-') (subNonWord (lowerList s.toList))).asString

/-- Python `str.strip()` (whitespace from both ends). -/
def pyStrip (s : String) : String :=
  (stripChar (fun c => c.isWhitespace) s.toList).asString

/-- Collect the maximal runs of characters satisfying `keep`; `acc` holds
the (reversed) run currently being read. -/
def runsAux (keep : Char → Bool) : List Char → List Char → List String
  | [], acc => if acc.isEmpty then [] else [acc.reverse.asString]
  | c :: cs, acc =>
    if keep c then runsAux keep cs (c :: acc)
    else if acc.isEmpty then runsAux keep cs []
    else acc.reverse.asString :: runsAux keep cs []

/-- Python `str.split()` with no argument: the maximal runs of
non-whitespace characters (no empty pieces). -/
def pySplit (s : String) : List String :=
  runsAux (fun c => !c.isWhitespace) s.toList []

/-- `pat` occurs somewhere inside `text` (as a contiguous character run). -/
def isSubstrOf (pat : List Char) : List Char → Bool
  | [] => pat.isEmpty
  | c :: cs => pat.isPrefixOf (c :: cs) || isSubstrOf pat cs

/-- Substring test on strings: does `s` contain `pat`? -/
def containsSubstr (s pat : String) : Bool := isSubstrOf pat.toList s.toList

/-! ### Data model

`Entry`, `Tag`, `BlogEntryTag` and `FTSEntry` rows (app.py lines 69-204).
`EntryData` is the in-memory model instance handed to `Entry.save`: its
`tags` attribute is the raw string list assigned by `_create_or_edit`
(line 270), not a database column. -/

structure EntryRow where
  id : Nat
  title : String
  slug : String
  content : String
  published : Bool
deriving DecidableEq, Repr

structure EntryData where
  id : Option Nat
  title : String
  slug : String
  content : String
  published : Bool
  tags : List String
deriving DecidableEq, Repr

structure DB where
  entries : List EntryRow
  nextId : Nat
  /-- `BlogEntryTag` rows: (entry id, name). -/
  entryTags : List (Nat × String)
  /-- `Tag` rows: (tag, count); `tag` carries a unique constraint. -/
  tags : List (String × Nat)
  /-- `FTSEntry` rows: (entry_id, content). -/
  fts : List (Nat × String)
deriving DecidableEq, Repr

def emptyDB : DB := ⟨[], 1, [], [], []⟩

/-- SQLite unique-constraint violation (peewee `IntegrityError`). -/
inductive SaveError
  | integrity
deriving DecidableEq, Repr

/-! ### Entry.save (app.py lines 93-110) -/

/-- Line 95-96: `if not self.slug: self.slug = re.sub(...)`. -/
def effectiveSlug (e : EntryData) : String :=
  if e.slug = "" then normalize e.title else e.slug

/-- Line 97, `super(Entry, self).save(...)`: INSERT a fresh row (assigning
the next id) or UPDATE the row with the model's id; either way SQLite
enforces the unique constraint on `slug` and raises `IntegrityError` on a
collision with a different row. -/
def saveRow (db : DB) (e : EntryData) : Except SaveError (DB × Nat) :=
  let slug := effectiveSlug e
  match e.id with
  | none =>
    if db.entries.any (fun r => r.slug == slug) then .error .integrity
    else
      let row : EntryRow := ⟨db.nextId, e.title, slug, e.content, e.published⟩
      .ok ({ db with entries := db.entries ++ [row], nextId := db.nextId + 1 }, db.nextId)
  | some i =>
    if db.entries.any (fun r => r.id != i && r.slug == slug) then .error .integrity
    else
      let row : EntryRow := ⟨i, e.title, slug, e.content, e.published⟩
      .ok ({ db with entries := db.entries.map (fun r => if r.id == i then row else r) }, i)

/-- Lines 101-103: one `BlogEntryTag.create(entry_id=self.id, name=tag)` per
raw tag, with the name normalized; prior associations are never removed. -/
def addEntryTags (db : DB) (i : Nat) (rawTags : List String) : DB :=
  { db with entryTags := db.entryTags ++ rawTags.map (fun t => (i, normalize t)) }

/-- Line 126-127: the search document text,
`'\n'.join((self.title, self.content, ','.join(self.tags)))` — note the
joined tags are the RAW tag strings, not the normalized ones. -/
def docText (e : EntryData) : String :=
  e.title ++ "\n" ++ e.content ++ "\n" ++ String.intercalate "," e.tags

/-- Replace the first row keyed `i` (peewee `query.get()` then `save()`). -/
def replaceFirst (i : Nat) (txt : String) : List (Nat × String) → List (Nat × String)
  | [] => []
  | r :: rs => if r.1 == i then (i, txt) :: rs else r :: replaceFirst i txt rs

/-- `Entry.update_search_index` (lines 112-128): fetch the FTS row for this
entry id; update it if present, insert it (`force_insert`) otherwise. -/
def updateSearchIndex (db : DB) (i : Nat) (e : EntryData) : DB :=
  if db.fts.any (fun r => r.1 == i) then
    { db with fts := replaceFirst i (docText e) db.fts }
  else
    { db with fts := db.fts ++ [(i, docText e)] }

/-- Line 134: `Tag.update(count=Tag.count+1).where(Tag.tag << self.tags)` —
the WHERE clause matches the RAW tag strings (SQLite `IN` is
case-sensitive), not the normalized tokens. -/
def incrementTags (rows : List (String × Nat)) (rawTags : List String) :
    List (String × Nat) :=
  rows.map (fun r => if rawTags.contains r.1 then (r.1, r.2 + 1) else r)

/-- Lines 143-148: for each raw tag, normalize it and, when it is not among
`existing` (the tags selected by the raw-string WHERE of line 142), run
`Tag.create(tag=tag, count=1)` — which hits the unique constraint on
`Tag.tag` whenever the normalized token is already a row. -/
def createTagsLoop (existing : List String) (rawTags : List String)
    (rows : List (String × Nat)) : Except SaveError (List (String × Nat)) :=
  match rawTags with
  | [] => .ok rows
  | t :: rest =>
    let nt := normalize t
    if existing.contains nt then createTagsLoop existing rest rows
    else if rows.any (fun r => r.1 == nt) then .error .integrity
    else createTagsLoop existing rest (rows ++ [(nt, 1)])

/-- `Entry.update_tags` (lines 130-148). -/
def updateTags (db : DB) (rawTags : List String) : Except SaveError DB :=
  let rows := incrementTags db.tags rawTags
  let existing := (db.tags.filter (fun r => rawTags.contains r.1)).map (fun r => r.1)
  match createTagsLoop existing rawTags rows with
  | .error err => .error err
  | .ok rows2 => .ok { db with tags := rows2 }

/-- `Entry.save` (lines 93-110): row write, association rows, search index,
tag counts, in that order; any `IntegrityError` aborts the remainder. -/
def entrySave (db : DB) (e : EntryData) : Except SaveError (DB × Nat) :=
  match saveRow db e with
  | .error err => .error err
  | .ok (db1, i) =>
    let db2 := addEntryTags db1 i e.tags
    let db3 := updateSearchIndex db2 i e
    match updateTags db3 e.tags with
    | .error err => .error err
    | .ok db4 => .ok (db4, i)

/-- Outcome flashed by `_create_or_edit` (lines 263-289). -/
inductive Outcome
  | saved
  /-- flash('Title and Content are required.', 'danger') -/
  | validationError
  /-- flash('Error: this title is already in use.', 'danger') after the
  `database.atomic()` block rolls everything back. -/
  | integrityError
deriving DecidableEq, Repr

/-- `_create_or_edit` (lines 263-289): validate title/content, then run
`entry.save()` inside `database.atomic()`; on `IntegrityError` the whole
save — entry row, association rows, search document, tag counts — is rolled
back and the state is unchanged. -/
def createOrEdit (db : DB) (e : EntryData) : DB × Outcome :=
  if e.title = "" ∨ e.content = "" then (db, .validationError)
  else
    match entrySave db e with
    | .error _ => (db, .integrityError)
    | .ok (db', _) => (db', .saved)

/-! ### Read-only views -/

/-- `Entry.public` (lines 150-152). -/
def publicEntries (db : DB) : List EntryRow :=
  db.entries.filter (fun r => r.published)

/-- `Entry.drafts` (lines 154-156). -/
def drafts (db : DB) : List EntryRow :=
  db.entries.filter (fun r => !r.published)

/-- Line 160: `[word.strip() for word in query.split() if word.strip()]`. -/
def searchWords (q : String) : List String :=
  (pySplit q).filterMap (fun w => if pyStrip w = "" then none else some (pyStrip w))

/-- Token characters of SQLite's FTS `simple` tokenizer (alphanumeric). -/
def isTokenChar (c : Char) : Bool :=
  (65 ≤ c.toNat && c.toNat ≤ 90) || (97 ≤ c.toNat && c.toNat ≤ 122) ||
    (48 ≤ c.toNat && c.toNat ≤ 57)

/-- FTS `simple` tokenizer: case-folded maximal alphanumeric runs. -/
def ftsTokens (s : String) : List String :=
  runsAux isTokenChar (lowerList s.toList) []

/-- Model of SQLite FTS `MATCH` with the space-joined term list that
`Entry.search` builds (line 165): every query term must occur as a token of
the document. -/
def ftsMatch (doc : String) (query : String) : Bool :=
  (ftsTokens query).all (fun t => (ftsTokens doc).contains t)

/-- Model of the FTS rank of line 176: number of document tokens that are
query terms (a deterministic relevance score, higher = more relevant). -/
def rankScore (doc : String) (query : String) : Nat :=
  ((ftsTokens doc).filter (fun t => (ftsTokens query).contains t)).length

/-- Descending insertion by score (ORDER BY score DESC, line 181). -/
def insertByScore (x : EntryRow × Nat) : List (EntryRow × Nat) → List (EntryRow × Nat)
  | [] => [x]
  | y :: ys => if x.2 ≤ y.2 then y :: insertByScore x ys else x :: y :: ys

def sortByScore : List (EntryRow × Nat) → List (EntryRow × Nat)
  | [] => []
  | x :: xs => insertByScore x (sortByScore xs)

/-- `Entry.search` (lines 158-181): tokenize the query; with no tokens left,
return `Entry.select().where(Entry.id == 0)`; otherwise join `FTSEntry` with
`Entry` on the entry id, keep published rows whose document matches, and
order by score descending. -/
def search (db : DB) (q : String) : List (EntryRow × Nat) :=
  let ws := searchWords q
  if ws = [] then (db.entries.filter (fun r => r.id == 0)).map (fun r => (r, 0))
  else
    let s := String.intercalate " " ws
    let joined := db.fts.flatMap (fun f =>
      (db.entries.filter (fun r => r.id == f.1)).map (fun r => (f, r)))
    sortByScore ((joined.filter (fun p => p.2.published && ftsMatch p.1.2 s)).map
      (fun p => (p.2, rankScore p.1.2 s)))

/-- `blogs_by_tag` (lines 331-337): collect the entry ids of all
`BlogEntryTag` rows whose name equals the URL's tag, and return every entry
with such an id — note there is no `published` filter. -/
def blogsByTag (db : DB) (tagName : String) : List EntryRow :=
  let ids := (db.entryTags.filter (fun r => r.2 == tagName)).map (fun r => r.1)
  db.entries.filter (fun r => ids.contains r.id)

/-! ### Operations of the core, for state invariants -/

/-- One externally invocable operation of the core. -/
inductive Op
  | save (e : EntryData)
  | publicList
  | draftList
  | searchOp (q : String)
  | byTag (t : String)
deriving Repr

/-- State transition of one operation: only `save` (through
`_create_or_edit`'s transaction) writes; every read leaves the state as is. -/
def stepOp (db : DB) : Op → DB
  | .save e => (createOrEdit db e).1
  | .publicList => db
  | .draftList => db
  | .searchOp _ => db
  | .byTag _ => db

def runOps (db : DB) : List Op → DB
  | [] => db
  | op :: ops => runOps (stepOp db op) ops

/-- The slug transformation in the order the spec words it (replace each
maximal run of non-word characters by a single hyphen, THEN lower-case, then
strip hyphens) — to be compared with `normalize`, which lower-cases first as
the code does. -/
def slugSpec (s : String) : String :=
  (stripChar (fun c => c == '-') (lowerList (subNonWord s.toList))).asString

end Blog

namespace Blog

/-! ### Helper lemmas -/

theorem toNat_ofNat_valid (n : Nat) (h : n < 55296) : (Char.ofNat n).toNat = n := by
  have hv : n.isValidChar := Or.inl h
  rw [Char.ofNat, dif_pos hv]
  rfl

theorem isWordChar_toLower (c : Char) : isWordChar c.toLower = isWordChar c := by
  unfold Char.toLower
  by_cases h : c.toNat ≥ 65 ∧ c.toNat ≤ 90
  · rw [if_pos h]
    have h32 : (Char.ofNat (c.toNat + 32)).toNat = c.toNat + 32 :=
      toNat_ofNat_valid _ (by omega)
    simp only [isWordChar, h32]
    have : (97 ≤ c.toNat + 32 && c.toNat + 32 ≤ 122) = true := by
      simp; omega
    rw [this]
    have : (65 ≤ c.toNat && c.toNat ≤ 90) = true := by simp; omega
    rw [this]
    simp
  · rw [if_neg h]

theorem toLower_eq_self_of_not_upper (c : Char) (h : ¬(c.toNat ≥ 65 ∧ c.toNat ≤ 90)) :
    c.toLower = c := by
  unfold Char.toLower
  rw [if_neg h]

theorem toLower_dash : Char.toLower '-' = '-' := by
  apply toLower_eq_self_of_not_upper
  decide

theorem subRunsAux_lowerList (cs : List Char) :
    ∀ b, subRunsAux b (lowerList cs) = lowerList (subRunsAux b cs) := by
  induction cs with
  | nil => intro b; rfl
  | cons c cs ih =>
    intro b
    by_cases hw : isWordChar c = true
    · have hw' : isWordChar c.toLower = true := by rw [isWordChar_toLower]; exact hw
      simp only [lowerList, List.map_cons, subRunsAux, hw, hw', if_true]
      simpa [lowerList] using ih false
    · have hw' : ¬isWordChar c.toLower = true := by rw [isWordChar_toLower]; exact hw
      cases b with
      | true =>
        simp only [lowerList, List.map_cons, subRunsAux, if_neg hw, if_neg hw', if_true]
        simpa [lowerList] using ih true
      | false =>
        simp only [lowerList, List.map_cons, subRunsAux, if_neg hw, if_neg hw', if_false,
          toLower_dash]
        simpa [lowerList] using ih true

theorem mem_subRunsAux (c : Char) (cs : List Char) :
    ∀ b, c ∈ subRunsAux b cs → isWordChar c = true ∨ c = '-' := by
  induction cs with
  | nil => intro b h; cases h
  | cons d ds ih =>
    intro b h
    unfold subRunsAux at h
    by_cases hw : isWordChar d = true
    · rw [if_pos hw] at h
      rcases List.mem_cons.mp h with rfl | h'
      · exact Or.inl hw
      · exact ih false h'
    · rw [if_neg hw] at h
      cases b with
      | true => exact ih true (by simpa using h)
      | false =>
        rcases List.mem_cons.mp (by simpa using h) with rfl | h'
        · exact Or.inr rfl
        · exact ih true h'

theorem mem_stripChar (p : Char → Bool) (l : List Char) (c : Char)
    (h : c ∈ stripChar p l) : c ∈ l := by
  unfold stripChar at h
  rw [List.mem_reverse] at h
  have h1 := (List.dropWhile_sublist p).subset h
  rw [List.mem_reverse] at h1
  exact (List.dropWhile_sublist p).subset h1

/-! ### Claim theorems -/

/-- C6: the derived slug replaces each maximal run of non-word characters
with a single hyphen, lower-cases, and strips leading/trailing hyphens
(`normalize` performs exactly the spec-worded pipeline `slugSpec`);
consequently the derived slug contains only word characters and hyphens, and
"Hello, World!" yields "hello-world". -/
theorem slug_matches_spec_pipeline (t : String) :
    normalize t = slugSpec t ∧
    (∀ c ∈ (normalize t).toList, isWordChar c = true ∨ c = '-') ∧
    normalize "Hello, World!" = "hello-world" := by
  refine ⟨?_, ?_, by decide⟩
  · unfold normalize slugSpec subNonWord
    rw [subRunsAux_lowerList]
  · intro c hc
    have he : (normalize t).toList =
        stripChar (fun c => c == '-') (subNonWord (lowerList t.toList)) := rfl
    rw [he] at hc
    exact mem_subRunsAux c _ false (mem_stripChar _ _ _ hc)

/-- Witness for `slug_matches_spec_pipeline` at title "Hello, World!". -/
theorem slug_matches_spec_pipeline_witness :
    normalize "Hello, World!" = slugSpec "Hello, World!" ∧
    (isWordChar 'h' = true ∨ 'h' = '-') :=
  ⟨(slug_matches_spec_pipeline "Hello, World!").1,
   (slug_matches_spec_pipeline "Hello, World!").2.1 'h' (by decide)⟩

/-- C2 fails on the code: saving an entry with tags ["announce"] and then
re-saving the same entry with the identical tag list leaves the count at 2,
not 1 — `update_tags` re-increments because the entry's prior associations
are never removed (the defect §9 of the spec flags). -/
theorem resave_reincrements_tag_count :
    (createOrEdit emptyDB ⟨none, "Hello", "", "first post", true, ["announce"]⟩).1.tags
      = [("announce", 1)] ∧
    (createOrEdit
        (createOrEdit emptyDB ⟨none, "Hello", "", "first post", true, ["announce"]⟩).1
        ⟨some 1, "Hello", "hello", "first post", true, ["announce"]⟩).1.tags
      = [("announce", 2)] := by decide

/-- C3's "every normalized tag string" fails on the code: the search
document joins the RAW tag strings (line 126 uses `self.tags` unchanged), so
after saving with tags ["Announce"] the document is "T\nc\nAnnounce" and the
normalized token "announce" does not occur in it at all. -/
theorem search_doc_uses_raw_tags :
    (createOrEdit emptyDB ⟨none, "T", "", "c", true, ["Announce"]⟩).1.fts
      = [(1, "T\nc\nAnnounce")] ∧
    normalize "Announce" = "announce" ∧
    containsSubstr "T\nc\nAnnounce" "announce" = false := by decide

/-- C7 fails on the code: a title made entirely of punctuation derives the
empty slug, and `_create_or_edit` / `Entry.save` accept it — the entry is
persisted with slug "" and no validation error is raised. -/
theorem empty_slug_is_persisted :
    createOrEdit emptyDB ⟨none, "!!!", "", "x", true, [""]⟩ =
      (⟨[⟨1, "!!!", "", "x", true⟩], 2, [(1, "")], [("", 1)], [(1, "!!!\nx\n")]⟩,
        Outcome.saved) := by decide

/-- C8 fails on the code: `blogs_by_tag` never filters on `published`, so an
unpublished entry associated with the tag does appear in the tag view. -/
theorem unpublished_entry_in_tag_view :
    (⟨1, "T", "t", "c", false⟩ : EntryRow) ∈
      blogsByTag ⟨[⟨1, "T", "t", "c", false⟩], 2, [(1, "news")], [("news", 1)], [(1, "d")]⟩
        "news" ∧
    (⟨1, "T", "t", "c", false⟩ : EntryRow).published = false := by decide

/-- C9 fails on the code: saving an entry with tag "Announce" while
Tag("announce") exists does not increment that row — the raw-string WHERE of
`update_tags` misses it, the create of the normalized token then violates
the unique constraint, and the whole save is rolled back with an
IntegrityError (count stays 1 and the new entry is not stored). -/
theorem mixed_case_tag_raises_integrity_error :
    createOrEdit
        ⟨[⟨1, "A", "a", "c", true⟩], 2, [(1, "announce")], [("announce", 1)], [(1, "d")]⟩
        ⟨none, "B", "", "c2", true, ["Announce"]⟩ =
      (⟨[⟨1, "A", "a", "c", true⟩], 2, [(1, "announce")], [("announce", 1)], [(1, "d")]⟩,
        Outcome.integrityError) := by decide

/-- C1: a save whose effective slug (given, or derived from the title)
collides with a different stored entry's slug raises the uniqueness
violation at the entry-row write, and the `database.atomic()` block of
`_create_or_edit` leaves the whole state — entry rows, tag counts,
association rows, search documents — exactly as before. -/
theorem duplicate_slug_save_rolls_back (db : DB) (e1 : EntryRow) (e2 : EntryData)
    (hmem : e1 ∈ db.entries)
    (hslug : e1.slug = effectiveSlug e2)
    (hdist : ∀ i, e2.id = some i → e1.id ≠ i)
    (htitle : e2.title ≠ "") (hcontent : e2.content ≠ "") :
    createOrEdit db e2 = (db, Outcome.integrityError) ∧
    (createOrEdit db e2).1.entries = db.entries ∧
    (createOrEdit db e2).1.tags = db.tags ∧
    (createOrEdit db e2).1.entryTags = db.entryTags ∧
    (createOrEdit db e2).1.fts = db.fts := by
  have hsr : saveRow db e2 = .error .integrity := by
    cases hid : e2.id with
    | none =>
      have hany : db.entries.any (fun r => r.slug == effectiveSlug e2) = true :=
        List.any_eq_true.mpr ⟨e1, hmem, by simp [hslug]⟩
      simp [saveRow, hid, hany]
    | some i =>
      have hne : e1.id ≠ i := hdist i hid
      have hany : db.entries.any (fun r => r.id != i && r.slug == effectiveSlug e2) = true :=
        List.any_eq_true.mpr ⟨e1, hmem, by simp [hslug, hne]⟩
      simp [saveRow, hid, hany]
  have hmain : createOrEdit db e2 = (db, Outcome.integrityError) := by
    simp [createOrEdit, entrySave, hsr, htitle, hcontent]
  exact ⟨hmain, by rw [hmain], by rw [hmain], by rw [hmain], by rw [hmain]⟩

/-- Witness for `duplicate_slug_save_rolls_back`: "Hello!" derives the slug
"hello" already used by entry 1, and the failed save changes nothing. -/
theorem duplicate_slug_save_rolls_back_witness :
    (⟨1, "Hello", "hello", "c", true⟩ : EntryRow) ∈
      (⟨[⟨1, "Hello", "hello", "c", true⟩], 2, [], [("x", 1)], [(1, "d")]⟩ : DB).entries ∧
    ("hello" : String) = effectiveSlug ⟨none, "Hello!", "", "second", true, []⟩ ∧
    createOrEdit ⟨[⟨1, "Hello", "hello", "c", true⟩], 2, [], [("x", 1)], [(1, "d")]⟩
        ⟨none, "Hello!", "", "second", true, []⟩ =
      (⟨[⟨1, "Hello", "hello", "c", true⟩], 2, [], [("x", 1)], [(1, "d")]⟩,
        Outcome.integrityError) :=
  ⟨by decide, by decide,
   (duplicate_slug_save_rolls_back
      ⟨[⟨1, "Hello", "hello", "c", true⟩], 2, [], [("x", 1)], [(1, "d")]⟩
      ⟨1, "Hello", "hello", "c", true⟩
      ⟨none, "Hello!", "", "second", true, []⟩
      (by decide) (by decide) (by intro i h; cases h) (by decide) (by decide)).1⟩

/-- C5: a query with no non-whitespace characters tokenizes to no words, and
`Entry.search` then returns the empty result (its `Entry.id == 0` query
matches nothing, since every stored entry has a positive id). -/
theorem blank_query_returns_empty (db : DB) (q : String)
    (hpos : ∀ r ∈ db.entries, 0 < r.id)
    (hblank : searchWords q = []) :
    search db q = [] := by
  simp only [search, hblank]
  have hnil : db.entries.filter (fun r => r.id == 0) = [] := by
    rw [List.filter_eq_nil_iff]
    intro r hr
    have := hpos r hr
    simp only [beq_iff_eq]
    omega
  simp [hnil]

/-- Witness for `blank_query_returns_empty` on a non-empty database and the
query "   ". -/
theorem blank_query_returns_empty_witness :
    searchWords "   " = [] ∧
    search ⟨[⟨1, "T", "t", "hello", true⟩], 2, [], [], [(1, "T\nhello\n")]⟩ "   " = [] :=
  ⟨by decide,
   blank_query_returns_empty ⟨[⟨1, "T", "t", "hello", true⟩], 2, [], [], [(1, "T\nhello\n")]⟩
     "   " (by decide) (by decide)⟩

/-- C8 amended: the tag view returns exactly the entries having an
association row with the requested name — with no `published` filter, so
unpublished entries appear too. -/
theorem tag_view_lists_all_associated (db : DB) (t : String) (r : EntryRow) :
    r ∈ blogsByTag db t ↔
      r ∈ db.entries ∧ ∃ p ∈ db.entryTags, p.2 = t ∧ p.1 = r.id := by
  unfold blogsByTag
  rw [List.mem_filter]
  simp only [List.contains, List.elem_eq_mem, decide_eq_true_eq, List.mem_map,
    List.mem_filter, beq_iff_eq]
  constructor
  · rintro ⟨hr, p, ⟨hp, hpt⟩, hpi⟩
    exact ⟨hr, p, hp, hpt, hpi⟩
  · rintro ⟨hr, p, hp, hpt, hpi⟩
    exact ⟨hr, p, ⟨hp, hpt⟩, hpi⟩

theorem mem_insertByScore (x y : EntryRow × Nat) (l : List (EntryRow × Nat)) :
    y ∈ insertByScore x l ↔ y = x ∨ y ∈ l := by
  induction l with
  | nil => simp [insertByScore]
  | cons z zs ih =>
    unfold insertByScore
    by_cases h : x.2 ≤ z.2
    · rw [if_pos h]
      rw [List.mem_cons, ih, List.mem_cons]
      tauto
    · rw [if_neg h]
      rw [List.mem_cons, List.mem_cons]

theorem mem_sortByScore (y : EntryRow × Nat) (l : List (EntryRow × Nat)) :
    y ∈ sortByScore l ↔ y ∈ l := by
  induction l with
  | nil => simp [sortByScore]
  | cons z zs ih =>
    unfold sortByScore
    rw [mem_insertByScore, ih, List.mem_cons]

theorem search_mem_published (db : DB) (q : String) (p : EntryRow × Nat)
    (hpos : ∀ r ∈ db.entries, 0 < r.id) (hp : p ∈ search db q) :
    p.1.published = true := by
  by_cases hws : searchWords q = []
  · simp only [search, hws, if_pos] at hp
    rw [List.mem_map] at hp
    obtain ⟨r, hr, rfl⟩ := hp
    rw [List.mem_filter] at hr
    have h1 := hpos r hr.1
    have h0 : r.id = 0 := by simpa using hr.2
    omega
  · simp only [search, hws, if_false] at hp
    rw [mem_sortByScore, List.mem_map] at hp
    obtain ⟨pr, hpr, rfl⟩ := hp
    rw [List.mem_filter] at hpr
    have h2 := hpr.2
    simp only [Bool.and_eq_true] at h2
    exact h2.1

/-- C4: an unpublished entry never appears in `Entry.search` results for any
query — the search joins the FTS table back to `Entry` and keeps only
`published == True` rows — while it does appear in `Entry.drafts`. -/
theorem drafts_excluded_from_search (db : DB) (q : String) (e : EntryRow)
    (hpos : ∀ r ∈ db.entries, 0 < r.id)
    (hunpub : e.published = false) :
    (∀ s, (e, s) ∉ search db q) ∧ (e ∈ db.entries → e ∈ drafts db) := by
  constructor
  · intro s hmem
    have h := search_mem_published db q (e, s) hpos hmem
    rw [hunpub] at h
    cases h
  · intro he
    unfold drafts
    rw [List.mem_filter]
    exact ⟨he, by simp [hunpub]⟩

/-- Witness for `drafts_excluded_from_search`: a draft whose content matches
the query "hello" is absent from its search results but listed in drafts. -/
theorem drafts_excluded_from_search_witness :
    ((⟨1, "T", "t", "hello draft", false⟩ : EntryRow), 1) ∉
      search ⟨[⟨1, "T", "t", "hello draft", false⟩], 2, [], [], [(1, "T\nhello draft\n")]⟩
        "hello" ∧
    (⟨1, "T", "t", "hello draft", false⟩ : EntryRow) ∈
      drafts ⟨[⟨1, "T", "t", "hello draft", false⟩], 2, [], [], [(1, "T\nhello draft\n")]⟩ :=
  ⟨(drafts_excluded_from_search
      ⟨[⟨1, "T", "t", "hello draft", false⟩], 2, [], [], [(1, "T\nhello draft\n")]⟩ "hello"
      ⟨1, "T", "t", "hello draft", false⟩ (by decide) (by decide)).1 1,
   (drafts_excluded_from_search
      ⟨[⟨1, "T", "t", "hello draft", false⟩], 2, [], [], [(1, "T\nhello draft\n")]⟩ "hello"
      ⟨1, "T", "t", "hello draft", false⟩ (by decide) (by decide)).2 (by decide)⟩

theorem saveRow_ok_parts (db : DB) (e : EntryData) (db1 : DB) (i : Nat)
    (h : saveRow db e = .ok (db1, i)) :
    db1.fts = db.fts ∧ db1.tags = db.tags ∧ db1.entryTags = db.entryTags := by
  unfold saveRow at h
  split at h <;> (dsimp only [] at h; split at h)
  · simp at h
  · simp only [Except.ok.injEq, Prod.mk.injEq] at h
    rw [← h.1]
    exact ⟨rfl, rfl, rfl⟩
  · simp at h
  · simp only [Except.ok.injEq, Prod.mk.injEq] at h
    rw [← h.1]
    exact ⟨rfl, rfl, rfl⟩

theorem filter_key_of_fresh (l : List (Nat × String)) (i : Nat) (txt : String)
    (h : ∀ r ∈ l, r.1 ≠ i) :
    (l ++ [(i, txt)]).filter (fun r => r.1 == i) = [(i, txt)] := by
  rw [List.filter_append]
  have h1 : l.filter (fun r => r.1 == i) = [] := by
    rw [List.filter_eq_nil_iff]
    intro r hr
    simpa using h r hr
  rw [h1]
  simp

theorem filter_key_replaceFirst (i : Nat) (txt : String) (l : List (Nat × String))
    (hnd : (l.map Prod.fst).Nodup) (hex : ∃ r ∈ l, r.1 = i) :
    (replaceFirst i txt l).filter (fun r => r.1 == i) = [(i, txt)] := by
  induction l with
  | nil => rcases hex with ⟨r, hr, _⟩; cases hr
  | cons a l ih =>
    rw [List.map_cons, List.nodup_cons] at hnd
    unfold replaceFirst
    by_cases hai : a.1 = i
    · rw [if_pos (by simpa using hai)]
      rw [List.filter_cons]
      have hfl : l.filter (fun r => r.1 == i) = [] := by
        rw [List.filter_eq_nil_iff]
        intro r hr
        simp only [beq_iff_eq]
        intro hri
        exact hnd.1 (by rw [← hai, ← hri] at *; exact List.mem_map_of_mem Prod.fst hr)
      simp [hfl]
    · rw [if_neg (by simpa using hai)]
      have hex' : ∃ r ∈ l, r.1 = i := by
        rcases hex with ⟨r, hr, hri⟩
        rcases List.mem_cons.mp hr with rfl | h'
        · exact absurd hri hai
        · exact ⟨r, h', hri⟩
      rw [List.filter_cons]
      have hne : (a.1 == i) = false := by simpa using hai
      rw [hne]
      simpa using ih hnd.2 hex'

theorem updateSearchIndex_fts (db : DB) (i : Nat) (e : EntryData) :
    (updateSearchIndex db i e).fts =
      if db.fts.any (fun r => r.1 == i) then replaceFirst i (docText e) db.fts
      else db.fts ++ [(i, docText e)] := by
  unfold updateSearchIndex
  split
  · rfl
  · rfl

theorem updateTags_ok_fts (db : DB) (raw : List String) (db4 : DB)
    (h : updateTags db raw = .ok db4) : db4.fts = db.fts := by
  unfold updateTags at h
  dsimp only [] at h
  split at h
  · simp at h
  · simp only [Except.ok.injEq] at h
    rw [← h]

/-- C3 amended: after a successful save of entry data `e` there is exactly
one search document for the saved id, and its text is exactly
`title ++ "\n" ++ content ++ "\n" ++ comma-joined RAW tag strings` — fully
replacing whatever document was there before. -/
theorem search_document_fully_replaced (db : DB) (e : EntryData) (db' : DB) (i : Nat)
    (hnd : (db.fts.map Prod.fst).Nodup)
    (h : entrySave db e = .ok (db', i)) :
    db'.fts.filter (fun r => r.1 == i) = [(i, docText e)] := by
  unfold entrySave at h
  split at h
  · simp at h
  · rename_i db1 j heq
    dsimp only [] at h
    split at h
    · simp at h
    · rename_i db4 heq2
      simp only [Except.ok.injEq, Prod.mk.injEq] at h
      obtain ⟨h1, h2⟩ := h
      rw [← h1, ← h2]
      have hfts1 : db1.fts = db.fts := (saveRow_ok_parts db e db1 j heq).1
      have hfts2 : (addEntryTags db1 j e.tags).fts = db.fts := hfts1
      have hfts4 := updateTags_ok_fts _ _ _ heq2
      rw [hfts4, updateSearchIndex_fts, hfts2]
      by_cases hc : db.fts.any (fun r => r.1 == j) = true
      · rw [if_pos hc]
        rcases List.any_eq_true.mp hc with ⟨r, hr, hri⟩
        exact filter_key_replaceFirst j (docText e) db.fts hnd ⟨r, hr, by simpa using hri⟩
      · rw [if_neg hc]
        have hfresh : ∀ r ∈ db.fts, r.1 ≠ j := by
          intro r hr hri
          exact hc (List.any_eq_true.mpr ⟨r, hr, by simp [hri]⟩)
        exact filter_key_of_fresh db.fts j (docText e) hfresh

/-- Witness for `search_document_fully_replaced` on a fresh save. -/
theorem search_document_fully_replaced_witness :
    ((emptyDB.fts.map Prod.fst).Nodup) ∧
    (⟨[⟨1, "T", "t", "c", true⟩], 2, [(1, "x")], [("x", 1)], [(1, "T\nc\nx")]⟩ : DB).fts.filter
        (fun r => r.1 == 1) = [(1, docText ⟨none, "T", "", "c", true, ["x"]⟩)] :=
  ⟨by decide,
   search_document_fully_replaced emptyDB ⟨none, "T", "", "c", true, ["x"]⟩
     ⟨[⟨1, "T", "t", "c", true⟩], 2, [(1, "x")], [("x", 1)], [(1, "T\nc\nx")]⟩ 1
     (by decide) (by rfl)⟩

theorem mem_incrementTags (rows : List (String × Nat)) (raw : List String) (t : String)
    (c : Nat) (h : (t, c) ∈ rows) :
    (t, c) ∈ incrementTags rows raw ∨ (t, c + 1) ∈ incrementTags rows raw := by
  unfold incrementTags
  by_cases hc : t ∈ raw
  · right
    have himg : (fun r => if raw.contains r.1 then (r.1, r.2 + 1) else r) (t, c) = (t, c + 1) := by
      simp [hc]
    rw [← himg]
    exact List.mem_map_of_mem _ h
  · left
    have himg : (fun r => if raw.contains r.1 then (r.1, r.2 + 1) else r) (t, c) = (t, c) := by
      simp [hc]
    rw [← himg]
    exact List.mem_map_of_mem _ h

theorem createTagsLoop_mono (existing : List String) :
    ∀ (raw : List String) (rows rows2 : List (String × Nat)),
      createTagsLoop existing raw rows = .ok rows2 → ∀ x ∈ rows, x ∈ rows2 := by
  intro raw
  induction raw with
  | nil =>
    intro rows rows2 h x hx
    unfold createTagsLoop at h
    simp only [Except.ok.injEq] at h
    rw [← h]
    exact hx
  | cons tg rest ih =>
    intro rows rows2 h x hx
    unfold createTagsLoop at h
    dsimp only [] at h
    split at h
    · exact ih rows rows2 h x hx
    · split at h
      · simp at h
      · exact ih _ rows2 h x (List.mem_append_left _ hx)

theorem updateTags_mono (db : DB) (raw : List String) (db4 : DB) (t : String) (c : Nat)
    (h : updateTags db raw = .ok db4) (hmem : (t, c) ∈ db.tags) :
    ∃ c', (t, c') ∈ db4.tags ∧ c ≤ c' := by
  unfold updateTags at h
  dsimp only [] at h
  split at h
  · simp at h
  · rename_i rows2 heq
    simp only [Except.ok.injEq] at h
    rw [← h]
    rcases mem_incrementTags db.tags raw t c hmem with hm | hm
    · exact ⟨c, createTagsLoop_mono _ _ _ _ heq _ hm, Nat.le_refl c⟩
    · exact ⟨c + 1, createTagsLoop_mono _ _ _ _ heq _ hm, Nat.le_succ c⟩

theorem stepOp_tag_mono (db : DB) (op : Op) (t : String) (c : Nat)
    (hmem : (t, c) ∈ db.tags) :
    ∃ c', (t, c') ∈ (stepOp db op).tags ∧ c ≤ c' := by
  cases op with
  | publicList => exact ⟨c, hmem, Nat.le_refl c⟩
  | draftList => exact ⟨c, hmem, Nat.le_refl c⟩
  | searchOp q => exact ⟨c, hmem, Nat.le_refl c⟩
  | byTag s => exact ⟨c, hmem, Nat.le_refl c⟩
  | save e =>
    show ∃ c', (t, c') ∈ (createOrEdit db e).1.tags ∧ c ≤ c'
    unfold createOrEdit
    split
    · exact ⟨c, hmem, Nat.le_refl c⟩
    · split
      · exact ⟨c, hmem, Nat.le_refl c⟩
      · rename_i db' i heq
        unfold entrySave at heq
        split at heq
        · simp at heq
        · rename_i db1 j heq1
          dsimp only [] at heq
          split at heq
          · simp at heq
          · rename_i db4 heq2
            simp only [Except.ok.injEq, Prod.mk.injEq] at heq
            obtain ⟨h1, _⟩ := heq
            rw [← h1]
            have htags1 : db1.tags = db.tags := (saveRow_ok_parts db e db1 j heq1).2.1
            have hmem3 : (t, c) ∈ (updateSearchIndex (addEntryTags db1 j e.tags) j e).tags := by
              have hsi : (updateSearchIndex (addEntryTags db1 j e.tags) j e).tags = db1.tags := by
                unfold updateSearchIndex
                split
                · rfl
                · rfl
              rw [hsi, htags1]
              exact hmem
            exact updateTags_mono _ _ _ t c heq2 hmem3

/-- C10: across any sequence of core operations (saves through
`_create_or_edit`, and the read-only listings and searches), a Tag row's
count never decreases — `update_tags` only increments counts or creates rows
at count 1, and nothing ever decrements or deletes a Tag row. -/
theorem tag_counts_never_decrease (ops : List Op) (db : DB) (t : String) (c : Nat)
    (hmem : (t, c) ∈ db.tags) :
    ∃ c', (t, c') ∈ (runOps db ops).tags ∧ c ≤ c' := by
  induction ops generalizing db c with
  | nil => exact ⟨c, hmem, Nat.le_refl c⟩
  | cons op ops ih =>
    obtain ⟨c1, hc1, hle1⟩ := stepOp_tag_mono db op t c hmem
    obtain ⟨c2, hc2, hle2⟩ := ih (stepOp db op) c1 hc1
    exact ⟨c2, hc2, Nat.le_trans hle1 hle2⟩

/-- Witness for `tag_counts_never_decrease`: a save that re-uses the tag
"news" followed by a search leaves Tag("news") at a count of at least 1. -/
theorem tag_counts_never_decrease_witness :
    ("news", 1) ∈
      (⟨[⟨1, "A", "a", "c", true⟩], 2, [(1, "news")], [("news", 1)], [(1, "d")]⟩ : DB).tags ∧
    ∃ c', ("news", c') ∈
        (runOps ⟨[⟨1, "A", "a", "c", true⟩], 2, [(1, "news")], [("news", 1)], [(1, "d")]⟩
          [Op.save ⟨none, "B", "", "x", true, ["news"]⟩, Op.searchOp "x"]).tags ∧
      1 ≤ c' :=
  ⟨by decide,
   tag_counts_never_decrease [Op.save ⟨none, "B", "", "x", true, ["news"]⟩, Op.searchOp "x"]
     ⟨[⟨1, "A", "a", "c", true⟩], 2, [(1, "news")], [("news", 1)], [(1, "d")]⟩ "news" 1
     (by decide)⟩

end Blog
